import Mathlib

/-!
Verification of the glockit REST-API benchmarking engine.

The repository ships two variants of the engine, both under src/:
* `Glockit` (src/unnamed/part_001) - the engine the CLI imports;
* `BarbariansBench` (src/unnamed/part_000) - the older variant.
Shared machinery (JSON values, template substitution, dot-path extraction)
is embedded once; each engine's request classification, scheduler loop and
extraction policy is embedded in its own namespace, following the source.

JavaScript strings are modelled as Lean `String`; JSON-compatible values as
the mutual inductive `JValue`; the insertion-ordered `Map` used for the
variable store as an association list updated in place.  Times and sizes are
modelled as exact rationals.
-/

/- JSON-compatible values are the payloads of request bodies, parsed response
bodies and extracted variables.  Mutual with JArray/JObject so that
structural recursion over nested arrays and objects is available. -/
mutual
/-- A JSON-compatible value. -/
inductive JValue where
  | null
  | jbool (b : Bool)
  | num (n : Int)
  | str (s : String)
  | arr (items : JArray)
  | obj (fields : JObject)
deriving DecidableEq
/-- A JSON array. -/
inductive JArray where
  | nil
  | cons (head : JValue) (tail : JArray)
deriving DecidableEq
/-- A JSON object: ordered fields. -/
inductive JObject where
  | nil
  | cons (key : String) (value : JValue) (tail : JObject)
deriving DecidableEq
end

/-- Lookup of an own data property of a JSON object, first match wins
(JSON objects from parsed responses have unique keys). -/
def JObject.lookup : JObject → String → Option JValue
  | .nil, _ => none
  | .cons k v t, key => if k = key then some v else JObject.lookup t key

/-- Number of elements of a JSON array. -/
def JArray.length : JArray → Nat
  | .nil => 0
  | .cons _ t => 1 + JArray.length t

/-- Element of a JSON array at an index. -/
def JArray.get? : JArray → Nat → Option JValue
  | .nil, _ => none
  | .cons h _, 0 => some h
  | .cons _ t, n + 1 => JArray.get? t n

/-- An opening brace character. -/
def lbrace : Char := '\x7b'

/-- A closing brace character. -/
def rbrace : Char := '\x7d'

/-- The whole double-brace template marker for a variable name. -/
def marker (name : String) : String :=
  String.mk (lbrace :: lbrace :: name.data ++ [rbrace, rbrace])

/-- Splitting a character list at a separator, JS `String.prototype.split`
semantics: `split` of the empty string is one empty field. -/
def splitCharsAux (sep : Char) : List Char → List Char → List (List Char)
  | [], acc => [acc.reverse]
  | c :: cs, acc =>
      if c = sep then acc.reverse :: splitCharsAux sep cs []
      else splitCharsAux sep cs (c :: acc)

/-- JS `path.split(sep)` on strings. -/
def jsSplit (s : String) (sep : Char) : List String :=
  (splitCharsAux sep s.data []).map String.mk

/-- One left-to-right scan replacing every non-overlapping occurrence of a
(non-empty) pattern, as JS `String.prototype.replace` with a global regexp
whose pattern is a literal: at each position, if the pattern matches it is
consumed and the replacement emitted, otherwise one character is copied.
Fuel is the length of the subject, enough since the pattern is non-empty. -/
def replaceAllAux (pat rep : List Char) : Nat → List Char → List Char
  | 0, s => s
  | _ + 1, [] => []
  | fuel + 1, c :: cs =>
      if pat.isPrefixOf (c :: cs) then
        rep ++ replaceAllAux pat rep fuel ((c :: cs).drop pat.length)
      else c :: replaceAllAux pat rep fuel cs

/-- JS `s.replace(new RegExp(pat, 'g'), rep)` for a literal pattern. -/
def jsReplaceAll (s pat rep : String) : String :=
  if pat.data = [] then s else ⟨replaceAllAux pat.data rep.data s.data.length s.data⟩

/- JS String(value) coercion: null prints as "null", arrays join their
elements with commas (null elements printing empty), plain objects print
as "[object Object]". -/
mutual
/-- JS `String(value)` coercion. -/
def jsString : JValue → String
  | .null => "null"
  | .jbool true => "true"
  | .jbool false => "false"
  | .num n => toString n
  | .str s => s
  | .arr items => jsStringItems items
  | .obj _ => "[object Object]"
/-- Comma-joined rendering of array elements. -/
def jsStringItems : JArray → String
  | .nil => ""
  | .cons h .nil => jsStringItem h
  | .cons h t => jsStringItem h ++ "," ++ jsStringItems t
/-- One array element inside a join: `null` renders empty, every other
value as `String(value)`. -/
def jsStringItem : JValue → String
  | .null => ""
  | .jbool true => "true"
  | .jbool false => "false"
  | .num n => toString n
  | .str s => s
  | .arr items => jsStringItems items
  | .obj _ => "[object Object]"
end

/-- The engine's variable store `private variables: Map<string, any>`
(part_000 line 20, part_001 line 39): a JS `Map` in insertion order. -/
abbrev VarMap : Type := List (String × JValue)

/-- The empty store a fresh engine instance starts with. -/
def VarMap.empty : VarMap := []

/-- JS `Map.prototype.set`: an existing key keeps its position and gets the
new value, a new key is appended at the end. -/
def VarMap.set (m : VarMap) (k : String) (v : JValue) : VarMap :=
  if m.any (fun p => p.1 = k) then
    m.map (fun p => if p.1 = k then (k, v) else p)
  else m ++ [(k, v)]

/-- JS `Map.prototype.get` as an `Option`. -/
def VarMap.get (m : VarMap) (k : String) : Option JValue :=
  (m.find? (fun p => p.1 = k)).map (fun p => p.2)

/-- `replaceVariables` (part_001 lines 528-536, identical in part_000 lines
285-293): for each stored variable, in insertion order, globally replace its
double-brace marker by the string-coerced value.  A marker whose name is not
in the store is never touched and stays verbatim. -/
def replaceVariables (vars : VarMap) (text : String) : String :=
  vars.foldl (fun acc kv => jsReplaceAll acc (marker kv.1) (jsString kv.2)) text

/- replaceVariablesInObject (part_001 lines 545-557, identical in
part_000 lines 302-314): recurse through arrays and objects, substitute in
strings, leave every other leaf (numbers, booleans, null) untouched. -/
mutual
/-- `replaceVariablesInObject` on one value. -/
def replaceVariablesInObject (vars : VarMap) : JValue → JValue
  | .null => .null
  | .jbool b => .jbool b
  | .num n => .num n
  | .str s => .str (replaceVariables vars s)
  | .arr items => .arr (replaceVariablesInArray vars items)
  | .obj fields => .obj (replaceVariablesInFields vars fields)
/-- `replaceVariablesInObject` mapped over an array. -/
def replaceVariablesInArray (vars : VarMap) : JArray → JArray
  | .nil => .nil
  | .cons h t => .cons (replaceVariablesInObject vars h) (replaceVariablesInArray vars t)
/-- `replaceVariablesInObject` mapped over an object's field values. -/
def replaceVariablesInFields (vars : VarMap) : JObject → JObject
  | .nil => .nil
  | .cons k v t => .cons k (replaceVariablesInObject vars v) (replaceVariablesInFields vars t)
end

/-- Canonical decimal rendering of an index, for JS property access on
arrays: `a["2"]` is `a[2]` only when the key is the canonical decimal. -/
def canonicalIndex? (key : String) : Option Nat :=
  match key.toNat? with
  | some n => if toString n = key then some n else none
  | none => none

/-- One step of `current?.[key]` on a JSON value: own data properties of
objects, canonical numeric indices and `length` of arrays, canonical
numeric indices and `length` of strings; `null` and the other primitives
have no own data properties, so the step yields `undefined` (`none`). -/
def jsIndex (v : JValue) (key : String) : Option JValue :=
  match v with
  | .obj fields => fields.lookup key
  | .arr items =>
      if key = "length" then some (.num items.length)
      else match canonicalIndex? key with
        | some i => items.get? i
        | none => none
  | .str s =>
      if key = "length" then some (.num s.length)
      else match canonicalIndex? key with
        | some i => (s.data.get? i).map (fun c => .str (String.mk [c]))
        | none => none
  | _ => none

/-- `getValueByPath` (part_001 lines 519-521, identical in part_000 lines
276-278): split the path on dots and fold `current?.[key]` over the
segments; any missing segment makes the whole result `undefined`. -/
def getValueByPath (v : JValue) (path : String) : Option JValue :=
  (jsSplit path '.').foldl (fun current key => current.bind (fun w => jsIndex w key)) (some v)

/-- Where an extraction rule reads from (`types.ts` line 42). -/
inductive ExtractFrom where
  | response
  | headers
deriving DecidableEq

/-- `VariableExtraction` (`types.ts` lines 39-43). -/
structure VariableExtraction where
  name : String
  path : String
  from_ : ExtractFrom
deriving DecidableEq

/-- Response headers as delivered by the transport. -/
abbrev Headers : Type := List (String × String)

/-- Header lookup, `headers[extraction.path]`. -/
def Headers.lookup (hs : Headers) (k : String) : Option String :=
  (hs.find? (fun p => p.1 = k)).map (fun p => p.2)

/-- `extractVariables` (part_001 lines 491-511, identical in part_000 lines
248-268): for each rule read the value from the parsed body (dot path) or
the headers (direct lookup); a value that is not `undefined` is written to
the store, a missing one is skipped silently - the function is total and
never faults, matching the source's try/catch around each rule. -/
def extractVariables (rules : List VariableExtraction) (responseData : Option JValue)
    (headers : Option Headers) (vars : VarMap) : VarMap :=
  rules.foldl (fun vs r =>
    let value : Option JValue :=
      match r.from_ with
      | .response => responseData.bind (fun d => getValueByPath d r.path)
      | .headers => (headers.bind (fun hs => hs.lookup r.path)).map JValue.str
    match value with
    | some v => vs.set r.name v
    | none => vs) vars


/-- HTTP methods accepted by the validator (`types.ts` line 24). -/
inductive Method where
  | GET
  | POST
  | PUT
  | DELETE
  | PATCH
deriving DecidableEq

/-- `EndpointConfig` (`types.ts` lines 21-37).  Optional JS fields become
`Option`; `headers`, `variables` and `dependencies` are only ever read
through `x || defaultEmpty`, so they are embedded as plain lists.  The
source field `variables` is spelled `variables'` because `variables` is a
reserved word in Lean 4. -/
structure EndpointConfig where
  name : String
  url : String
  method : Method
  headers : Headers := []
  body : Option JValue := none
  maxRequests : Option Nat := none
  throttle : Option Nat := none
  requestDelay : Option Nat := none
  variables' : List VariableExtraction := []
  dependencies : List String := []
deriving DecidableEq

/-- `GlobalConfig` (`types.ts` lines 7-19). -/
structure GlobalConfig where
  maxRequests : Option Nat := none
  duration : Option Nat := none
  throttle : Option Nat := none
  concurrent : Option Nat := none
  timeout : Option Nat := none
  requestDelay : Option Nat := none
deriving DecidableEq

/-- `BenchmarkConfig` (`types.ts` lines 1-5). -/
structure BenchmarkConfig where
  name : Option String := none
  endpoints : List EndpointConfig
  global : Option GlobalConfig := none
deriving DecidableEq

/-- JS `a || d` for an optional numeric field: `undefined` and the falsy
`0` both fall through to the default (the validator rejects 0 anyway). -/
def jsOrNat (a : Option Nat) (d : Nat) : Nat :=
  match a with
  | some n => if n = 0 then d else n
  | none => d

/-- What the HTTP transport hands back for one dispatched request: a
response (any status code, `validateStatus: () => true` never throws on
HTTP errors) or a transport fault that makes the client throw.  Elapsed
time in milliseconds is part of the script. -/
inductive TransportOutcome where
  | ok (status : Nat) (respHeaders : Headers) (body : JValue) (elapsedMs : Rat)
  | fault (message : String) (status : Option Nat) (elapsedMs : Rat)
deriving DecidableEq

/-- `RequestResult` (`types.ts` lines 82-91). -/
structure RequestResult where
  success : Bool
  responseTime : Rat
  statusCode : Option Nat := none
  error : Option String := none
  data : Option JValue := none
  headers : Option Headers := none
  requestSizeKB : Option Rat := none
  responseSizeKB : Option Rat := none
deriving DecidableEq

/-- UTF-8 byte length of a string (`Buffer.byteLength(s, 'utf8')`). -/
def utf8Length (s : String) : Nat :=
  s.data.foldl (fun n c => n + c.utf8Size) 0

/-- A JSON string literal: the quoted, escaped rendering used by
`JSON.stringify` (standard escapes for quote, backslash and controls). -/
def jsonQuote (s : String) : String :=
  "\"" ++ String.mk (s.data.foldr (fun c acc =>
    if c = '"' then '\\' :: '"' :: acc
    else if c = '\\' then '\\' :: '\\' :: acc
    else if c = '\n' then '\\' :: 'n' :: acc
    else if c = '\r' then '\\' :: 'r' :: acc
    else if c = '\t' then '\\' :: 't' :: acc
    else c :: acc) []) ++ "\""

/- JSON.stringify rendering of a value, used by getObjectSizeKB (part_001
lines 12-22) to measure payload sizes. -/
mutual
/-- `JSON.stringify(value)`. -/
def jsonStringify : JValue → String
  | .null => "null"
  | .jbool true => "true"
  | .jbool false => "false"
  | .num n => toString n
  | .str s => jsonQuote s
  | .arr items => "[" ++ jsonStringifyItems items ++ "]"
  | .obj fields => String.mk [lbrace] ++ jsonStringifyFields fields ++ String.mk [rbrace]
/-- Comma-joined `JSON.stringify` of array elements. -/
def jsonStringifyItems : JArray → String
  | .nil => ""
  | .cons h .nil => jsonStringify h
  | .cons h t => jsonStringify h ++ "," ++ jsonStringifyItems t
/-- Comma-joined `key:value` renderings of object fields. -/
def jsonStringifyFields : JObject → String
  | .nil => ""
  | .cons k v .nil => jsonQuote k ++ ":" ++ jsonStringify v
  | .cons k v t => jsonQuote k ++ ":" ++ jsonStringify v ++ "," ++ jsonStringifyFields t
end

/-- `getObjectSizeKB` (part_001 lines 12-22): 0 for a falsy argument, the
raw UTF-8 byte count over 1024 for a string, and the byte count of the
`JSON.stringify` rendering over 1024 otherwise. -/
def getObjectSizeKB (v : JValue) : Rat :=
  match v with
  | .null => 0
  | .jbool false => 0
  | .jbool true => (utf8Length (jsonStringify (.jbool true)) : Rat) / 1024
  | .num n => if n = 0 then 0 else (utf8Length (jsonStringify (.num n)) : Rat) / 1024
  | .str s => (utf8Length s : Rat) / 1024
  | .arr items => (utf8Length (jsonStringify (.arr items)) : Rat) / 1024
  | .obj fields => (utf8Length (jsonStringify (.obj fields)) : Rat) / 1024

/-- `getObjectSizeKB` on a possibly-undefined value: `undefined` is falsy. -/
def getObjectSizeKB? (v : Option JValue) : Rat :=
  match v with
  | none => 0
  | some v => getObjectSizeKB v

/-- A header record as the JSON object `JSON.stringify` sees. -/
def headersToJ (hs : Headers) : JValue :=
  .obj (hs.foldr (fun p t => .cons p.1 (.str p.2) t) .nil)

/-- `parseFloat(x.toFixed(6))`: decimal rounding to six places, ties away
from zero upward (ECMA toFixed picks the larger candidate on a tie). -/
def jsToFixed6 (q : Rat) : Rat :=
  ((⌊q * 1000000 + 1 / 2⌋ : Int) : Rat) / 1000000

/-- The one outgoing request `makeRequest` builds from an endpoint and the
current variable store, after template substitution (part_001 lines
385-394, part_000 lines 207-209 substitute the same three parts). -/
structure OutgoingRequest where
  url : String
  headers : Headers
  body : Option JValue
deriving DecidableEq

namespace Glockit

/-- Substitution step of `Glockit.makeRequest` (part_001 lines 385-394):
variables are resolved in the URL, in every header value, and in the body -
through the object walker when the body is an object or array, through the
string replacer when it is a string, otherwise untouched. -/
def substitutedRequest (vars : VarMap) (e : EndpointConfig) : OutgoingRequest :=
  { url := replaceVariables vars e.url
    headers := e.headers.map (fun p => (p.1, replaceVariables vars p.2))
    body :=
      match e.body with
      | none => none
      | some b =>
          match b with
          | .arr items => some (replaceVariablesInObject vars (.arr items))
          | .obj fields => some (replaceVariablesInObject vars (.obj fields))
          | .str s => some (.str (replaceVariables vars s))
          | other => some other }

/-- `Glockit.makeRequest` (part_001 lines 369-483) as a function of the
scripted transport outcome.  A received response is a success exactly when
`response.status >= 200 && response.status < 300` (line 462); a transport
fault yields `success: false` with the error message and any status the
fault carries (lines 474-481). -/
def makeRequest (vars : VarMap) (e : EndpointConfig) (t : TransportOutcome) : RequestResult :=
  let req := substitutedRequest vars e
  let requestSizeKB := getObjectSizeKB? req.body + getObjectSizeKB (headersToJ req.headers)
  match t with
  | .ok status respHeaders body elapsedMs =>
      { success := decide (200 ≤ status) && decide (status < 300)
        responseTime := elapsedMs
        statusCode := some status
        data := some body
        headers := some respHeaders
        requestSizeKB := some (jsToFixed6 requestSizeKB)
        responseSizeKB :=
          some (jsToFixed6 (getObjectSizeKB (headersToJ respHeaders) + getObjectSizeKB body)) }
  | .fault message status elapsedMs =>
      { success := false
        responseTime := elapsedMs
        error := some message
        statusCode := status
        requestSizeKB := some (jsToFixed6 requestSizeKB)
        responseSizeKB := some 0 }

/-- One iteration of the body of `executeRequest` (part_001 lines 269-277):
perform the request, and when it succeeded and the endpoint has extraction
rules, run extraction - on EVERY success, there is no first-success guard -
then push the outcome. -/
def processOutcome (e : EndpointConfig) (st : VarMap × List RequestResult)
    (t : TransportOutcome) : VarMap × List RequestResult :=
  let r := makeRequest st.1 e t
  let vars' :=
    if r.success && !e.variables'.isEmpty then
      extractVariables e.variables' r.data r.headers st.1
    else st.1
  (vars', st.2 ++ [r])

/-- The count-mode worker loop of `executeRequest` for one worker
(part_001 lines 204-208 and 253-294): iterate while
`results.length < maxRequests`; the transport script is indexed by the
number of results already recorded.  Fuel bounds the iterations; the entry
point passes `maxRequests`, enough because every iteration appends exactly
one outcome. -/
def countLoop (e : EndpointConfig) (maxRequests : Nat) (respond : Nat → TransportOutcome) :
    Nat → VarMap × List RequestResult → VarMap × List RequestResult
  | 0, st => st
  | fuel + 1, st =>
      if st.2.length < maxRequests then
        countLoop e maxRequests respond fuel (processOutcome e st (respond st.2.length))
      else st

/-- `benchmarkEndpoint` restricted to count mode with one worker: the
sequential execution the JS event loop produces when
`effectiveConcurrent = 1` and no duration is configured. -/
def benchmarkEndpointSeq (e : EndpointConfig) (maxRequests : Nat) (vars : VarMap)
    (respond : Nat → TransportOutcome) : VarMap × List RequestResult :=
  countLoop e maxRequests respond maxRequests (vars, [])

end Glockit

namespace BarbariansBench

/-- Substitution step of `BarbariansBench.makeRequest` (part_000 lines
207-209): URL through the string replacer, headers and body through the
object walker (the body is passed to it whatever its type). -/
def substitutedRequest (vars : VarMap) (e : EndpointConfig) : OutgoingRequest :=
  { url := replaceVariables vars e.url
    headers := e.headers.map (fun p => (p.1, replaceVariables vars p.2))
    body := e.body.map (replaceVariablesInObject vars) }

/-- `BarbariansBench.makeRequest` (part_000 lines 203-240): a received
response is a success exactly when
`response.status >= 200 && response.status < 400` (line 224); no payload
sizes are recorded, so nothing of the substituted request reaches the
result - the first two parameters keep the source signature. -/
def makeRequest (_vars : VarMap) (_e : EndpointConfig) (t : TransportOutcome) : RequestResult :=
  match t with
  | .ok status respHeaders body elapsedMs =>
      { success := decide (200 ≤ status) && decide (status < 400)
        responseTime := elapsedMs
        statusCode := some status
        data := some body
        headers := some respHeaders }
  | .fault message _ elapsedMs =>
      { success := false
        responseTime := elapsedMs
        error := some message }

/-- One request of `benchmarkEndpoint`'s batch body (part_000 lines
138-156): push the outcome, and extract variables only when this push made
the success count exactly one - the first successful response. -/
def processOutcome (e : EndpointConfig) (st : VarMap × List RequestResult)
    (t : TransportOutcome) : VarMap × List RequestResult :=
  let r := makeRequest st.1 e t
  let results' := st.2 ++ [r]
  let vars' :=
    if r.success && !e.variables'.isEmpty
        && (results'.filter (fun x => x.success)).length = 1 then
      extractVariables e.variables' r.data r.headers st.1
    else st.1
  (vars', results')

/-- The count-mode loop of `BarbariansBench.benchmarkEndpoint` with
`concurrent = 1` (part_000 lines 132-175): batches of one request while
`results.length < maxRequests`; the safety counter only acts in duration
mode. -/
def countLoop (e : EndpointConfig) (maxRequests : Nat) (respond : Nat → TransportOutcome) :
    Nat → VarMap × List RequestResult → VarMap × List RequestResult
  | 0, st => st
  | fuel + 1, st =>
      if st.2.length < maxRequests then
        countLoop e maxRequests respond fuel (processOutcome e st (respond st.2.length))
      else st

/-- Count mode, one worker, from a given store. -/
def benchmarkEndpointSeq (e : EndpointConfig) (maxRequests : Nat) (vars : VarMap)
    (respond : Nat → TransportOutcome) : VarMap × List RequestResult :=
  countLoop e maxRequests respond maxRequests (vars, [])

end BarbariansBench

/-- `EndpointResult` (`types.ts` lines 52-71).  The older engine fills only
the fields it computes; the missing ones default so one structure serves
both. -/
structure EndpointResult where
  name : String
  url : String
  method : Method
  totalRequests : Nat
  successfulRequests : Nat
  failedRequests : Nat
  successRate : Rat := 0
  averageResponseTime : Rat
  minResponseTime : Rat
  maxResponseTime : Rat
  requestsPerSecond : Rat
  errors : List String
  requestResults : List RequestResult := []
  totalRequestSizeKB : Rat := 0
  averageRequestSizeKB : Rat := 0
  totalResponseSizeKB : Rat := 0
  averageResponseSizeKB : Rat := 0
deriving DecidableEq

/-- `[...new Set(errors)]`: distinct elements, first occurrence order. -/
def jsSetDedup (l : List String) : List String :=
  l.foldl (fun acc x => if x ∈ acc then acc else acc ++ [x]) []

/-- `Math.min(...ts)` over a non-empty list shape. -/
def listMin : List Rat → Rat
  | [] => 0
  | t :: ts => ts.foldl min t

/-- `Math.max(...ts)` over a non-empty list shape. -/
def listMax : List Rat → Rat
  | [] => 0
  | t :: ts => ts.foldl max t

namespace Glockit

/-- The statistics block of `benchmarkEndpoint` (part_001 lines 305-354):
counts, success rate, response-time aggregates over the outcomes with
positive latency, throughput, de-duplicated errors, payload-size
aggregates - and `requestResults: []`, the individual outcomes are
deliberately dropped from the result object (line 347). -/
def mkEndpointResult (e : EndpointConfig) (results : List RequestResult)
    (errors : List String) (totalElapsedTime : Rat) : EndpointResult :=
  let successfulResults := results.filter (fun r => r.success)
  let responseTimes := (results.map (fun r => r.responseTime)).filter (fun rt => 0 < rt)
  let totalRequests := results.length
  let successfulRequests := successfulResults.length
  let totalResponseTime := responseTimes.foldl (fun sum rt => sum + rt) 0
  let totalReqSize := results.foldl (fun sum r => sum + r.requestSizeKB.getD 0) 0
  let totalRespSize := results.foldl (fun sum r => sum + r.responseSizeKB.getD 0) 0
  { name := e.name
    url := e.url
    method := e.method
    totalRequests := totalRequests
    successfulRequests := successfulRequests
    failedRequests := totalRequests - successfulRequests
    successRate := if 0 < totalRequests then (successfulRequests : Rat) / totalRequests else 0
    averageResponseTime :=
      if 0 < responseTimes.length then totalResponseTime / responseTimes.length else 0
    minResponseTime := if 0 < responseTimes.length then listMin responseTimes else 0
    maxResponseTime := if 0 < responseTimes.length then listMax responseTimes else 0
    requestsPerSecond :=
      if 0 < totalElapsedTime then (totalRequests : Rat) / (totalElapsedTime / 1000) else 0
    errors := jsSetDedup errors
    requestResults := []
    totalRequestSizeKB := totalReqSize
    averageRequestSizeKB := if 0 < results.length then totalReqSize / results.length else 0
    totalResponseSizeKB := totalRespSize
    averageResponseSizeKB := if 0 < results.length then totalRespSize / results.length else 0 }

end Glockit

/-- `resolveDependencies`' readiness test (part_001 lines 149-154,
identical in part_000 lines 83-88): every declared dependency name already
appears among the resolved endpoints. -/
def depsResolved (resolved : List EndpointConfig) (e : EndpointConfig) : Bool :=
  e.dependencies.all (fun dep => resolved.any (fun r => r.name = dep))

/-- One full pass of `resolveDependencies`' inner for-loop (part_001 lines
147-160): the JS loop walks `remaining` from the LAST index down to 0 and
splices out each endpoint whose dependencies are all resolved, pushing it
onto `resolved`; splicing at the current index never shifts the
lower-indexed entries still to be visited.  Equivalently: the tail of the
list is processed before the head, the accumulator grows along the way,
and the kept entries retain their relative order.  Returns the grown
`resolved` and the spliced `remaining`. -/
def resolvePass (resolved : List EndpointConfig) :
    List EndpointConfig → List EndpointConfig × List EndpointConfig
  | [] => (resolved, [])
  | x :: xs =>
      let p := resolvePass resolved xs
      if depsResolved p.1 x then (p.1 ++ [x], p.2) else (p.1, x :: p.2)

/-- The outer while-loop of `resolveDependencies` (part_001 lines 144-168):
repeat passes until `remaining` is empty; a pass that moves nothing means a
dependency cycle (missing names never resolve), in which case the source
warns and appends all remaining endpoints in their current order.  Fuel is
the number of remaining endpoints - enough, because a non-final pass
removes at least one - and the fuel-exhausted case mirrors the
cycle branch so that under-fuelling cannot drop endpoints. -/
def resolveAux : Nat → List EndpointConfig → List EndpointConfig → List EndpointConfig
  | _, resolved, [] => resolved
  | 0, resolved, remaining => resolved ++ remaining
  | fuel + 1, resolved, x :: xs =>
      let p := resolvePass resolved (x :: xs)
      if p.2.length = (x :: xs).length then p.1 ++ p.2
      else resolveAux fuel p.1 p.2

/-- `resolveDependencies` (part_001 lines 140-171, identical in part_000
lines 74-105). -/
def resolveDependencies (endpoints : List EndpointConfig) : List EndpointConfig :=
  resolveAux endpoints.length [] endpoints

namespace Glockit

/-- Per-endpoint transport script for a whole run: the outcome of each
request of each endpoint, plus the endpoint's measured wall time. -/
structure EndpointScript where
  respond : Nat → TransportOutcome
  elapsedMs : Rat

/-- `benchmarkEndpoint` (part_001 lines 179-360) in count mode with one
worker, from a given variable store: resolve the effective `maxRequests`
(`endpoint.maxRequests || global?.maxRequests || 10`, line 180), run the
worker loop, aggregate.  The `errors` array only receives messages from
the catch-all around `makeRequest`, which never fires in the model (the
embedded `makeRequest` is total), so it stays empty. -/
def benchmarkEndpointRun (global : Option GlobalConfig) (e : EndpointConfig)
    (vars : VarMap) (script : EndpointScript) : VarMap × EndpointResult :=
  let maxRequests := jsOrNat e.maxRequests (jsOrNat (global.bind (fun g => g.maxRequests)) 10)
  let p := benchmarkEndpointSeq e maxRequests vars script.respond
  (p.1, mkEndpointResult e p.2 [] script.elapsedMs)

/-- `run` (part_001 lines 53-133) at the variable-store level, count mode,
one worker: order the endpoints with `resolveDependencies`, then process
them strictly sequentially.  The method never touches `this.variables`
except through extraction, so the store it starts from is whatever the
engine instance accumulated before - the model threads it in and out. -/
def run (cfg : BenchmarkConfig) (scripts : String → EndpointScript) (vars : VarMap) :
    VarMap × List EndpointResult :=
  (resolveDependencies cfg.endpoints).foldl
    (fun st e =>
      let p := benchmarkEndpointRun cfg.global e st.1 (scripts e.name)
      (p.1, st.2 ++ [p.2]))
    (vars, [])

end Glockit

namespace Glockit

/-- The duration-mode stop test of `benchmarkEndpoint` (part_001 lines
205-208): `shouldContinue = () => (Date.now() - startTime) < duration`.
It reads only the clock; neither `results.length` nor the
`requestCounter` declared on line 210 is consulted, so no request cap
exists in this engine.  This function folds one worker's while-loop over
a scripted clock: entry `k` of the script is the elapsed time
`Date.now() - startTime` read at the k-th loop top, and every iteration
that passes the check issues exactly one request. -/
def durationIterations (duration : Nat) : List Nat → Nat
  | [] => 0
  | t :: rest => if t < duration then 1 + durationIterations duration rest else 0

end Glockit

namespace BarbariansBench

/-- The duration-mode batch loop of `benchmarkEndpoint` (part_000 lines
132-175) as a fold over a script: each entry `(t, k)` gives the elapsed
time read at the loop top and how many requests the inner for-loop issued
before its own `shouldContinue()` re-checks cut it off (never more than
the batch size `concurrent`, each one incrementing `requestCounter`).
After the batch, the safety check at lines 170-174 breaks the loop as soon
as `requestCounter > 10000`.  Returns the total number of issued
requests. -/
def durationIssued (duration concurrent : Nat) : List (Nat × Nat) → Nat → Nat
  | [], _ => 0
  | (t, k) :: rest, counter =>
      if t < duration then
        if 10000 < counter + min k concurrent then min k concurrent
        else min k concurrent +
          durationIssued duration concurrent rest (counter + min k concurrent)
      else 0

end BarbariansBench

namespace Glockit

/-- A snapshot of the count-mode scheduler of `benchmarkEndpoint`: how many
of the workers sit between loop iterations (idle), how many have passed the
`results.length < maxRequests` check and are awaiting their dispatched
request (inflight), how many have observed the stop condition and returned
(stopped), and how many outcomes have been pushed so far. -/
structure SchedState where
  idle : Nat
  inflight : Nat
  stopped : Nat
  pushed : Nat
deriving DecidableEq

/-- Interleaving semantics of the `executeRequest` workers in count mode
(part_001 lines 253-303).  `shouldContinue()` runs synchronously, but the
request is awaited, so between a worker's check and its push the other
workers make progress: `checkGo` - an idle worker finds
`results.length < maxRequests` and dispatches a request; `finish` - an
in-flight worker's request completes and its outcome is pushed; `checkStop`
- an idle worker finds the condition false and its loop returns.  No step
cancels an in-flight request: a started request always completes. -/
inductive SchedStep (maxRequests : Nat) : SchedState → SchedState → Prop where
  | checkGo (s : SchedState) : 0 < s.idle → s.pushed < maxRequests →
      SchedStep maxRequests s ⟨s.idle - 1, s.inflight + 1, s.stopped, s.pushed⟩
  | finish (s : SchedState) : 0 < s.inflight →
      SchedStep maxRequests s ⟨s.idle + 1, s.inflight - 1, s.stopped, s.pushed + 1⟩
  | checkStop (s : SchedState) : 0 < s.idle → ¬ s.pushed < maxRequests →
      SchedStep maxRequests s ⟨s.idle - 1, s.inflight, s.stopped + 1, s.pushed⟩

/-- The loop's start (part_001 lines 296-303): `effectiveConcurrent`
workers are spawned, all idle at their first check, nothing pushed. -/
def initState (workers : Nat) : SchedState :=
  ⟨workers, 0, 0, 0⟩

/-- States the scheduler can reach from the start. -/
def Reachable (maxRequests workers : Nat) (s : SchedState) : Prop :=
  Relation.ReflTransGen (SchedStep maxRequests) (initState workers) s

/-- `Promise.all` has resolved: every worker's loop has returned and no
request is in flight. -/
def Finished (s : SchedState) : Prop :=
  s.idle = 0 ∧ s.inflight = 0

/-- `effectiveConcurrent` (part_001 lines 183 and 197):
`min(global?.concurrent || 1, maxRequests)` taken twice, which collapses
to a single min. -/
def effectiveConcurrent (concurrent : Option Nat) (maxRequests : Nat) : Nat :=
  min (jsOrNat concurrent 1) maxRequests

end Glockit

/-! ## Derived predicates about dependency resolution -/

/-- Direct dependency between two endpoints of an input list: `x` is named
among `y`'s dependencies. -/
def DependsOn (l : List EndpointConfig) (x y : EndpointConfig) : Prop :=
  x ∈ l ∧ y ∈ l ∧ x.name ∈ y.dependencies

/-- The input's dependency relation has no cycle (no endpoint transitively
depends on itself). -/
def Acyclic (l : List EndpointConfig) : Prop :=
  ∀ x, ¬ Relation.TransGen (DependsOn l) x x

/-- Every declared dependency name refers to some endpoint of the input
(the validator guarantees this before a run starts). -/
def ClosedDeps (l : List EndpointConfig) : Prop :=
  ∀ y ∈ l, ∀ dep ∈ y.dependencies, ∃ x ∈ l, x.name = dep

/-- An endpoint named `dep` occurs in `l` strictly before position `j`. -/
def NamedBefore (l : List EndpointConfig) (j : Nat) (dep : String) : Prop :=
  ∃ i : Nat, ∃ hi : i < l.length, i < j ∧ (l.get ⟨i, hi⟩).name = dep

/-- Every endpoint of the list is preceded by a bearer of each of its
dependency names: the order respects the dependencies. -/
def TopoOrdered (l : List EndpointConfig) : Prop :=
  ∀ (j : Nat) (hj : j < l.length), ∀ dep ∈ (l.get ⟨j, hj⟩).dependencies, NamedBefore l j dep

/-! ## Concrete fixtures used by counterexamples and witnesses -/

/-- The nested body of the spec's extraction example. -/
def userBody : JValue :=
  .obj (.cons "user" (.obj (.cons "id" (.str "u-1") .nil)) .nil)

/-- Endpoint A of the two-endpoint dependency cycle. -/
def cycA : EndpointConfig :=
  { name := "A", url := "http://h/a", method := .GET, dependencies := ["B"] }

/-- Endpoint B of the two-endpoint dependency cycle. -/
def cycB : EndpointConfig :=
  { name := "B", url := "http://h/b", method := .GET, dependencies := ["A"] }

/-- An endpoint with no dependencies, distinct from `indepB`. -/
def indepA : EndpointConfig :=
  { name := "A", url := "http://h/a", method := .GET }

/-- An endpoint with no dependencies, distinct from `indepA`. -/
def indepB : EndpointConfig :=
  { name := "B", url := "http://h/b", method := .GET }

/-- A minimal endpoint with no templates, rules or dependencies. -/
def sampleEndpoint : EndpointConfig :=
  { name := "e", url := "http://h/", method := .GET }

/-- The response body both engines see in the chaining scenarios. -/
def tokenBody (v : String) : JValue :=
  .obj (.cons "token" (.str v) .nil)

/-- An endpoint that extracts the variable `x` from `token` of the body. -/
def chainEndpoint : EndpointConfig :=
  { name := "login", url := "http://h/login", method := .POST,
    maxRequests := some 1,
    variables' := [⟨"x", "token", .response⟩] }

/-- Transport script with two successful responses carrying different
token values. -/
def twoSuccessScript (v1 v2 : String) : Nat → TransportOutcome :=
  fun k => if k = 0 then .ok 200 [] (tokenBody v1) 5 else .ok 200 [] (tokenBody v2) 5

/-- A one-endpoint configuration whose endpoint extracts `x`. -/
def loginConfig : BenchmarkConfig :=
  { endpoints := [chainEndpoint] }

/-- A configuration with one extraction-free endpoint. -/
def plainConfig : BenchmarkConfig :=
  { endpoints := [sampleEndpoint] }

/-- Scripts that always answer 200 with the same token body. -/
def constScript (v : String) : String → Glockit.EndpointScript :=
  fun _ => ⟨fun _ => .ok 200 [] (tokenBody v) 5, 100⟩

/-! ## C1 - request success classification -/

/-- C1 counterexample: a response with status 300 lies in the claimed
success window 200 <= status < 400, yet `Glockit.makeRequest` classifies
it as a failure - its threshold is `status < 300` (part_001 line 462). -/
theorem glockit_makeRequest_status300_not_success :
    (Glockit.makeRequest [] sampleEndpoint (.ok 300 [] .null 5)).success = false
      ∧ 200 ≤ 300 ∧ 300 < 400 := by
  exact ⟨rfl, by decide, by decide⟩

/-- C1 (amended): for every response received without a transport error,
`Glockit.makeRequest` reports success exactly for status in [200, 300),
while the older `BarbariansBench.makeRequest` uses [200, 400); a transport
fault is never a success in either engine. -/
theorem makeRequest_success_thresholds :
    (∀ (vars : VarMap) (e : EndpointConfig) (status : Nat) (hs : Headers)
        (body : JValue) (el : Rat),
      ((Glockit.makeRequest vars e (.ok status hs body el)).success = true ↔
        200 ≤ status ∧ status < 300)
      ∧ ((BarbariansBench.makeRequest vars e (.ok status hs body el)).success = true ↔
        200 ≤ status ∧ status < 400))
    ∧ (∀ (vars : VarMap) (e : EndpointConfig) (msg : String) (st : Option Nat) (el : Rat),
      (Glockit.makeRequest vars e (.fault msg st el)).success = false
      ∧ (BarbariansBench.makeRequest vars e (.fault msg st el)).success = false) := by
  constructor
  · intro vars e status hs body el
    constructor
    · simp [Glockit.makeRequest]
    · simp [BarbariansBench.makeRequest]
  · intro vars e msg st el
    exact ⟨rfl, rfl⟩

/-! ## C8 - template substitution -/

/-- C8: substituting the marker for `x` with `x` bound to "v" yields "v";
substitution over an object replaces the marker inside the string field
and leaves the numeric field untouched; a marker whose name has no binding
is left verbatim; an empty store leaves any text verbatim. -/
theorem replaceVariables_spec_examples :
    replaceVariables [("x", .str "v")] (marker "x") = "v"
    ∧ replaceVariablesInObject [("x", .str "v")]
        (.obj (.cons "a" (.str (marker "x")) (.cons "b" (.num 3) .nil)))
      = .obj (.cons "a" (.str "v") (.cons "b" (.num 3) .nil))
    ∧ replaceVariables [("x", .str "v")] (marker "y") = marker "y"
    ∧ (∀ text : String, replaceVariables [] text = text) := by
  exact ⟨by decide, by decide, by decide, fun _ => rfl⟩

/-! ## C9 - variable extraction from the response body -/

/-- C9: a `from = response` rule binds its name to the value reached by
splitting the path on dots whenever the whole path is present, and is
skipped silently - store unchanged, no fault possible since the embedded
`extractVariables` is a total function - whenever a segment is missing.
The spec's two concrete scenarios close the statement. -/
theorem extractVariables_response_path_spec :
    (∀ (d : JValue) (hs : Option Headers) (vars : VarMap) (name path : String) (w : JValue),
      getValueByPath d path = some w →
        extractVariables [⟨name, path, .response⟩] (some d) hs vars = vars.set name w)
    ∧ (∀ (d : JValue) (hs : Option Headers) (vars : VarMap) (name path : String),
      getValueByPath d path = none →
        extractVariables [⟨name, path, .response⟩] (some d) hs vars = vars)
    ∧ getValueByPath userBody "user.id" = some (.str "u-1")
    ∧ extractVariables [⟨"userId", "user.id", .response⟩] (some userBody) none []
      = [("userId", .str "u-1")]
    ∧ extractVariables [⟨"v", "a.b.c", .response⟩] (some userBody) none [] = [] := by
  refine ⟨?_, ?_, by decide, by decide, by decide⟩
  · intro d hs vars name path w h
    simp [extractVariables, h]
  · intro d hs vars name path h
    simp [extractVariables, h]

/-! ## C10 - individual request outcomes never reach the result object -/

/-- C10: `benchmarkEndpoint` fills `requestResults` with the empty array
(part_001 line 347), so every `EndpointResult` a run returns exposes only
aggregated statistics, never the per-request outcomes. -/
theorem run_requestResults_empty :
    (∀ (e : EndpointConfig) (results : List RequestResult) (errors : List String)
        (elapsed : Rat),
      (Glockit.mkEndpointResult e results errors elapsed).requestResults = [])
    ∧ (∀ (cfg : BenchmarkConfig) (scripts : String → Glockit.EndpointScript) (vars : VarMap),
      ((Glockit.run cfg scripts vars).2.all
        (fun r => r.requestResults.isEmpty)) = true) := by
  constructor
  · intro e results errors elapsed
    rfl
  · intro cfg scripts vars
    unfold Glockit.run
    generalize resolveDependencies cfg.endpoints = l
    suffices h : ∀ (st : VarMap × List EndpointResult),
        (st.2.all fun r => r.requestResults.isEmpty) = true →
        ((l.foldl (fun st e =>
            let p := Glockit.benchmarkEndpointRun cfg.global e st.1 (scripts e.name)
            (p.1, st.2 ++ [p.2])) st).2.all fun r => r.requestResults.isEmpty) = true by
      exact h (vars, []) rfl
    induction l with
    | nil => intro st hst; exact hst
    | cons e rest ih =>
        intro st hst
        refine ih _ ?_
        simp only [List.all_append, hst, List.all_cons, List.all_nil, Bool.and_true,
          Bool.true_and]
        rfl

/-! ## Dependency resolver: helper lemmas -/

/-- One pass preserves the endpoints as a multiset. -/
theorem resolvePass_perm (res : List EndpointConfig) :
    ∀ rem, ((resolvePass res rem).1 ++ (resolvePass res rem).2).Perm (res ++ rem) := by
  intro rem
  induction rem with
  | nil => simp [resolvePass]
  | cons x xs ih =>
      rcases hp : resolvePass res xs with ⟨a, b⟩
      rw [hp] at ih
      simp only at ih
      by_cases hd : depsResolved a x = true
      · have h1 : ((a ++ [x]) ++ b).Perm (x :: (a ++ b)) := by
          have e1 : (a ++ [x]) ++ b = a ++ x :: b := by simp
          rw [e1]; exact List.perm_middle
        have h2 : (x :: (a ++ b)).Perm (x :: (res ++ xs)) := ih.cons x
        have h3 : (res ++ x :: xs).Perm (x :: (res ++ xs)) := List.perm_middle
        simpa [resolvePass, hp, hd] using (h1.trans h2).trans h3.symm
      · have h1 : (a ++ x :: b).Perm (x :: (a ++ b)) := List.perm_middle
        have h2 : (x :: (a ++ b)).Perm (x :: (res ++ xs)) := ih.cons x
        have h3 : (res ++ x :: xs).Perm (x :: (res ++ xs)) := List.perm_middle
        simpa [resolvePass, hp, hd] using (h1.trans h2).trans h3.symm

/-- A pass never lengthens the remaining list. -/
theorem resolvePass_len_le (res : List EndpointConfig) :
    ∀ rem, (resolvePass res rem).2.length ≤ rem.length := by
  intro rem
  induction rem with
  | nil => simp [resolvePass]
  | cons x xs ih =>
      rcases hp : resolvePass res xs with ⟨a, b⟩
      rw [hp] at ih
      simp only at ih
      by_cases hd : depsResolved a x = true <;>
        simp [resolvePass, hp, hd] <;> omega

/-- The resolved accumulator only grows during a pass. -/
theorem resolvePass_prefix (res : List EndpointConfig) :
    ∀ rem, ∃ t, (resolvePass res rem).1 = res ++ t := by
  intro rem
  induction rem with
  | nil => exact ⟨[], by simp [resolvePass]⟩
  | cons x xs ih =>
      rcases hp : resolvePass res xs with ⟨a, b⟩
      rw [hp] at ih
      simp only at ih
      obtain ⟨t, ht⟩ := ih
      subst ht
      by_cases hd : depsResolved (res ++ t) x = true
      · exact ⟨t ++ [x], by simp [resolvePass, hp, hd]⟩
      · exact ⟨t, by simp [resolvePass, hp, hd]⟩

/-- Readiness survives growing the resolved list. -/
theorem depsResolved_mono (res t : List EndpointConfig) (e : EndpointConfig)
    (h : depsResolved res e = true) : depsResolved (res ++ t) e = true := by
  simp only [depsResolved, List.all_eq_true, List.any_eq_true] at h ⊢
  intro dep hdep
  obtain ⟨r, hr, hname⟩ := h dep hdep
  exact ⟨r, List.mem_append_left _ hr, hname⟩

/-- A pass that can see a ready endpoint makes progress. -/
theorem resolvePass_progress (res : List EndpointConfig) :
    ∀ rem m, m ∈ rem → depsResolved res m = true →
      (resolvePass res rem).2.length < rem.length := by
  intro rem
  induction rem with
  | nil => intro m hm; exact absurd hm (List.not_mem_nil m)
  | cons x xs ih =>
      intro m hm hready
      rcases hp : resolvePass res xs with ⟨a, b⟩
      have hlen : b.length ≤ xs.length := by
        have := resolvePass_len_le res xs
        rw [hp] at this; exact this
      rcases List.mem_cons.1 hm with hmx | hmxs
      · subst hmx
        obtain ⟨t, ht⟩ := resolvePass_prefix res xs
        rw [hp] at ht
        simp only at ht
        have hd : depsResolved a m = true := by
          rw [ht]; exact depsResolved_mono res t m hready
        simp [resolvePass, hp, hd]
        omega
      · have hb := ih m hmxs hready
        rw [hp] at hb
        simp only at hb
        by_cases hd : depsResolved a x = true <;>
          simp [resolvePass, hp, hd] <;> omega

/-- The whole resolution is a permutation of accumulator plus remaining,
whatever the fuel. -/
theorem resolveAux_perm : ∀ (fuel : Nat) (res rem : List EndpointConfig),
    (resolveAux fuel res rem).Perm (res ++ rem) := by
  intro fuel
  induction fuel with
  | zero =>
      intro res rem
      cases rem with
      | nil => simp [resolveAux]
      | cons x xs => simp [resolveAux]
  | succ fuel ih =>
      intro res rem
      cases rem with
      | nil => simp [resolveAux]
      | cons x xs =>
          by_cases hstop : (resolvePass res (x :: xs)).2.length = (x :: xs).length <;>
            simp only [List.length_cons] at hstop <;>
            simp [resolveAux, hstop]
          · exact resolvePass_perm res (x :: xs)
          · exact (ih (resolvePass res (x :: xs)).1 (resolvePass res (x :: xs)).2).trans
              (resolvePass_perm res (x :: xs))

/-- `resolveDependencies` returns a permutation of its input. -/
theorem resolveDependencies_perm (l : List EndpointConfig) :
    (resolveDependencies l).Perm l := by
  simpa [resolveDependencies] using resolveAux_perm l.length [] l

/-- The empty list is trivially ordered. -/
theorem topoOrdered_nil : TopoOrdered [] := by
  intro j hj
  exact absurd hj (by simp)

/-- Appending an endpoint whose dependency names all have bearers in the
current list keeps the list ordered. -/
theorem topoOrdered_append (l : List EndpointConfig) (x : EndpointConfig)
    (hl : TopoOrdered l) (hx : ∀ dep ∈ x.dependencies, ∃ y ∈ l, y.name = dep) :
    TopoOrdered (l ++ [x]) := by
  intro j hj dep hdep
  have hlen : (l ++ [x]).length = l.length + 1 := by simp
  rcases Nat.lt_or_ge j l.length with hj' | hj'
  · have hget : (l ++ [x]).get ⟨j, hj⟩ = l.get ⟨j, hj'⟩ := by
      simp [List.get_eq_getElem, List.getElem_append_left hj']
    rw [hget] at hdep
    obtain ⟨i, hi, hij, hname⟩ := hl j hj' dep hdep
    have hi' : i < (l ++ [x]).length := by rw [hlen]; omega
    have hget2 : (l ++ [x]).get ⟨i, hi'⟩ = l.get ⟨i, hi⟩ := by
      simp [List.get_eq_getElem, List.getElem_append_left hi]
    exact ⟨i, hi', hij, by rw [hget2]; exact hname⟩
  · have hjl : j = l.length := by rw [hlen] at hj; omega
    subst hjl
    have hget : (l ++ [x]).get ⟨l.length, hj⟩ = x := by
      simp [List.get_eq_getElem, List.getElem_append_right (Nat.le_refl l.length)]
    rw [hget] at hdep
    obtain ⟨y, hy, hname⟩ := hx dep hdep
    obtain ⟨n, hgy⟩ := List.mem_iff_get.1 hy
    have hn := n.isLt
    have hi' : n.1 < (l ++ [x]).length := by rw [hlen]; omega
    have hget2 : (l ++ [x]).get ⟨n.1, hi'⟩ = l.get n := by
      simp [List.get_eq_getElem, List.getElem_append_left n.isLt]
    exact ⟨n.1, hi', hn, by rw [hget2, hgy]; exact hname⟩

/-- A pass only appends endpoints whose dependencies are already resolved,
so it preserves the ordering invariant of the accumulator. -/
theorem resolvePass_topo (res : List EndpointConfig) :
    ∀ rem, TopoOrdered res → TopoOrdered (resolvePass res rem).1 := by
  intro rem
  induction rem with
  | nil => intro h; simpa [resolvePass] using h
  | cons x xs ih =>
      intro h
      rcases hp : resolvePass res xs with ⟨a, b⟩
      have ha : TopoOrdered a := by
        have := ih h; rw [hp] at this; exact this
      by_cases hd : depsResolved a x = true
      · have hx : ∀ dep ∈ x.dependencies, ∃ y ∈ a, y.name = dep := by
          simpa [depsResolved, List.all_eq_true, List.any_eq_true] using hd
        simpa [resolvePass, hp, hd] using topoOrdered_append a x ha hx
      · simpa [resolvePass, hp, hd] using ha

/-- A finite non-empty list ordered by a transitive irreflexive relation
has a minimal element. -/
theorem exists_rel_minimal {α : Type} (r : α → α → Prop)
    (htrans : ∀ a b c, r a b → r b c → r a c) (hirr : ∀ a, ¬ r a a) :
    ∀ s : List α, s ≠ [] → ∃ m ∈ s, ∀ x ∈ s, ¬ r x m := by
  intro s
  induction s with
  | nil => intro h; exact absurd rfl h
  | cons a t ih =>
      intro _
      cases t with
      | nil =>
          refine ⟨a, by simp, ?_⟩
          intro x hx
          rw [List.mem_singleton] at hx
          subst hx
          exact hirr _
      | cons b u =>
          obtain ⟨m, hm, hmin⟩ := ih (by simp)
          by_cases hr : r a m
          · refine ⟨a, by simp, ?_⟩
            intro x hx hxa
            rcases List.mem_cons.1 hx with rfl | hxt
            · exact hirr x hxa
            · exact hmin x hxt (htrans x a m hxa hr)
          · refine ⟨m, List.mem_cons_of_mem a hm, ?_⟩
            intro x hx hxm
            rcases List.mem_cons.1 hx with rfl | hxt
            · exact hr hxm
            · exact hmin x hxt hxm

/-- Under an acyclic, name-closed dependency graph, some endpoint of a
non-empty remaining set is ready: all its dependency names already have
bearers among the resolved endpoints. -/
theorem exists_ready (l res rem : List EndpointConfig) (hA : Acyclic l)
    (hC : ClosedDeps l) (hperm : (res ++ rem).Perm l) (hne : rem ≠ []) :
    ∃ m ∈ rem, depsResolved res m = true := by
  obtain ⟨m, hm, hmin⟩ :=
    exists_rel_minimal (Relation.TransGen (DependsOn l))
      (fun a b c hab hbc => hab.trans hbc) hA rem hne
  refine ⟨m, hm, ?_⟩
  simp only [depsResolved, List.all_eq_true, List.any_eq_true]
  intro dep hdep
  have hml : m ∈ l := hperm.subset (List.mem_append_right res hm)
  obtain ⟨x, hxl, hname⟩ := hC m hml dep hdep
  have hx' : x ∈ res ++ rem := hperm.symm.subset hxl
  rcases List.mem_append.1 hx' with hres | hrem
  · exact ⟨x, hres, by simp [hname]⟩
  · exfalso
    exact hmin x hrem (Relation.TransGen.single ⟨hxl, hml, by rw [hname]; exact hdep⟩)

/-- With enough fuel and an acyclic, closed input, the resolver loop keeps
its accumulator topologically ordered all the way to the end. -/
theorem resolveAux_topo (l : List EndpointConfig) (hA : Acyclic l) (hC : ClosedDeps l) :
    ∀ (fuel : Nat) (res rem : List EndpointConfig), rem.length ≤ fuel →
      (res ++ rem).Perm l → TopoOrdered res → TopoOrdered (resolveAux fuel res rem) := by
  intro fuel
  induction fuel with
  | zero =>
      intro res rem hlen hperm hres
      have : rem = [] := List.length_eq_zero.1 (Nat.le_zero.1 hlen)
      subst this
      simpa [resolveAux] using hres
  | succ fuel ih =>
      intro res rem hlen hperm hres
      cases rem with
      | nil => simpa [resolveAux] using hres
      | cons x xs =>
          obtain ⟨m, hm, hready⟩ := exists_ready l res (x :: xs) hA hC hperm (by simp)
          have hprog := resolvePass_progress res (x :: xs) m hm hready
          have hstop : ¬ (resolvePass res (x :: xs)).2.length = (x :: xs).length :=
            Nat.ne_of_lt hprog
          simp only [resolveAux]
          rw [if_neg hstop]
          refine ih (resolvePass res (x :: xs)).1 (resolvePass res (x :: xs)).2 ?_ ?_ ?_
          · have := hprog
            simp only [List.length_cons] at this hlen
            omega
          · exact (resolvePass_perm res (x :: xs)).trans hperm
          · exact resolvePass_topo res (x :: xs) hres

/-! ## C5 - dependency resolution: permutation, cycles, topological order -/

/-- C5: `resolveDependencies` is a total function (terminates without
throwing on every input, cycles included) returning a permutation of the
input: equal length, each endpoint exactly as often as it came in.  On the
two-endpoint cycle it falls back to the original order, each endpoint
appearing exactly once.  On every acyclic input whose dependency names all
refer to input endpoints, every endpoint is preceded by a bearer of each
of its dependency names. -/
theorem resolveDependencies_spec :
    (∀ l : List EndpointConfig, (resolveDependencies l).Perm l)
    ∧ (∀ l : List EndpointConfig, (resolveDependencies l).length = l.length)
    ∧ resolveDependencies [cycA, cycB] = [cycA, cycB]
    ∧ (resolveDependencies [cycA, cycB]).count cycA = 1
    ∧ (resolveDependencies [cycA, cycB]).count cycB = 1
    ∧ (∀ l : List EndpointConfig, Acyclic l → ClosedDeps l →
        TopoOrdered (resolveDependencies l)) := by
  refine ⟨resolveDependencies_perm, fun l => (resolveDependencies_perm l).length_eq,
    by decide, by decide, by decide, ?_⟩
  intro l hA hC
  exact resolveAux_topo l hA hC l.length [] l (Nat.le_refl _) (by simp) topoOrdered_nil

/-! ## C6 - resolution order of independent endpoints -/

/-- C6 counterexample: two endpoints with no dependencies at all - hence no
mutual ordering constraint - come out in REVERSED input order, because the
pass walks the remaining array from its last index down to 0. -/
theorem resolveDependencies_not_input_stable :
    resolveDependencies [indepA, indepB] = [indepB, indepA]
    ∧ indepA.dependencies = [] ∧ indepB.dependencies = []
    ∧ indepA ≠ indepB := by
  refine ⟨by decide, rfl, rfl, by decide⟩

/-- C6 (amended): far from preserving input order, a pass resolves the
remaining endpoints from last to first, so a list of dependency-free
endpoints is returned exactly reversed. -/
theorem resolveDependencies_reverses_independent (l : List EndpointConfig)
    (h : ∀ e ∈ l, e.dependencies = []) : resolveDependencies l = l.reverse := by
  have hpass : ∀ (res rem : List EndpointConfig), (∀ e ∈ rem, e.dependencies = []) →
      resolvePass res rem = (res ++ rem.reverse, []) := by
    intro res rem
    induction rem with
    | nil => intro _; simp [resolvePass]
    | cons x xs ih =>
        intro hall
        have hxs := ih (fun e he => hall e (List.mem_cons_of_mem x he))
        have hx : depsResolved (res ++ xs.reverse) x = true := by
          simp [depsResolved, hall x (List.mem_cons_self x xs)]
        simp [resolvePass, hxs, hx]
  cases l with
  | nil => rfl
  | cons x xs =>
      have hp := hpass [] (x :: xs) h
      simp only [resolveDependencies, resolveAux, hp, List.nil_append]
      simp

/-- C6 witness: the amended statement applied to the two independent
endpoints of the counterexample. -/
theorem resolveDependencies_reverses_independent_witness :
    resolveDependencies [indepA, indepB] = [indepA, indepB].reverse :=
  resolveDependencies_reverses_independent [indepA, indepB] (by decide)

/-! ## C2 - extraction policy: first success or every success -/

/-- C2 counterexample: with two successful responses, the binding made by
the first success ("v1") is overwritten by the second ("v2") - the live
engine runs extraction on every success (part_001 line 272), with no
first-success guard. -/
theorem glockit_second_success_overwrites :
    (Glockit.benchmarkEndpointSeq chainEndpoint 2 [] (twoSuccessScript "v1" "v2")).1
      = [("x", JValue.str "v2")]
    ∧ ((Glockit.benchmarkEndpointSeq chainEndpoint 2 [] (twoSuccessScript "v1" "v2")).2.map
        (fun r => r.success)) = [true, true]
    ∧ JValue.str "v2" ≠ JValue.str "v1" := by
  refine ⟨by decide, by decide, by decide⟩

/-- C2 (amended): the two engines implement the two policies of the spec's
open question.  Glockit extracts on every successful response, so the
binding reflects the last success (last-write-wins); BarbariansBench gates
extraction on the success count being exactly one after the push, so only
the first success binds. -/
theorem extraction_policy_per_engine (v1 v2 : String) :
    (Glockit.benchmarkEndpointSeq chainEndpoint 2 [] (twoSuccessScript v1 v2)).1
      = [("x", JValue.str v2)]
    ∧ (BarbariansBench.benchmarkEndpointSeq chainEndpoint 2 [] (twoSuccessScript v1 v2)).1
      = [("x", JValue.str v1)] := by
  exact ⟨rfl, rfl⟩

/-! ## C4 - lifetime of the variable store -/

/-- The worker loop never writes the store when the endpoint has no
extraction rules. -/
theorem glockit_countLoop_vars_const (e : EndpointConfig) (he : e.variables' = [])
    (max : Nat) (respond : Nat → TransportOutcome) :
    ∀ (fuel : Nat) (st : VarMap × List RequestResult),
      (Glockit.countLoop e max respond fuel st).1 = st.1 := by
  intro fuel
  induction fuel with
  | zero => intro st; rfl
  | succ fuel ih =>
      intro st
      simp only [Glockit.countLoop]
      by_cases hlt : st.2.length < max
      · rw [if_pos hlt, ih]
        simp [Glockit.processOutcome, he]
      · rw [if_neg hlt]

/-- C4 (amended): `run` never clears `this.variables`: a run whose
endpoints extract nothing returns the store exactly as it received it, so
whatever an earlier `run()` on the same engine instance bound is still
there - the store is instance-scoped, not run-scoped. -/
theorem glockit_run_carries_store (cfg : BenchmarkConfig)
    (scripts : String → Glockit.EndpointScript) (vars : VarMap)
    (h : ∀ e ∈ cfg.endpoints, e.variables' = []) :
    (Glockit.run cfg scripts vars).1 = vars := by
  unfold Glockit.run
  have h' : ∀ e ∈ resolveDependencies cfg.endpoints, e.variables' = [] :=
    fun e he => h e ((resolveDependencies_perm cfg.endpoints).subset he)
  suffices hs : ∀ (m : List EndpointConfig), (∀ e ∈ m, e.variables' = []) →
      ∀ st : VarMap × List EndpointResult,
        ((m.foldl (fun st e =>
          let p := Glockit.benchmarkEndpointRun cfg.global e st.1 (scripts e.name)
          (p.1, st.2 ++ [p.2])) st).1 = st.1) by
    exact hs _ h' (vars, [])
  intro m
  induction m with
  | nil => intro _ st; rfl
  | cons e rest ih =>
      intro hall st
      simp only [List.foldl_cons]
      rw [ih (fun x hx => hall x (List.mem_cons_of_mem _ hx))]
      simp only [Glockit.benchmarkEndpointRun, Glockit.benchmarkEndpointSeq]
      exact glockit_countLoop_vars_const e (hall e (List.mem_cons_self e rest)) _ _ _ _

/-- C4 witness: a run over one extraction-free endpoint, started on an
engine whose store already binds `x`, hands the binding straight back. -/
theorem glockit_run_carries_store_witness :
    (Glockit.run plainConfig (constScript "v") [("x", JValue.str "v")]).1
      = [("x", JValue.str "v")] :=
  glockit_run_carries_store plainConfig (constScript "v") [("x", JValue.str "v")] (by decide)

/-- C4 counterexample: a run that extracts `x` ends with a NON-empty store
- `run` returns the store to the instance field rather than discarding it -
and substitution against that store (what the next run's `makeRequest`
performs, since it reads the same `this.variables`) resolves the marker
instead of leaving it verbatim as a fresh empty store would. -/
theorem glockit_store_survives_run :
    (Glockit.run loginConfig (constScript "v") []).1 = [("x", JValue.str "v")]
    ∧ replaceVariables [("x", JValue.str "v")] (marker "x") = "v"
    ∧ marker "x" ≠ "v" := by
  refine ⟨by decide, by decide, by decide⟩

/-! ## C3 - the 10,000-request safety cap in duration mode -/

/-- A clock that stands still keeps the Glockit duration loop running: one
iteration per scripted tick, with no cap of any kind. -/
theorem glockit_durationIterations_replicate (d : Nat) (hd : 0 < d) :
    ∀ n, Glockit.durationIterations d (List.replicate n 0) = n := by
  intro n
  induction n with
  | zero => rfl
  | succ n ih =>
      simp [List.replicate_succ, Glockit.durationIterations, hd, ih]
      omega

/-- C3 counterexample: within an unelapsed duration the Glockit worker loop
runs 20,000 iterations - one request each - sailing straight past the
claimed 10,000-request cut-off, because its duration-mode stop test
(part_001 lines 205-208) consults only the clock. -/
theorem glockit_duration_loop_ignores_cap :
    Glockit.durationIterations 200 (List.replicate 20000 0) = 20000 ∧ 10000 < 20000 := by
  exact ⟨glockit_durationIterations_replicate 200 (by decide) 20000, by decide⟩

/-- C3 (amended): only the legacy BarbariansBench loop has the safety cap:
after any batch that pushes its request counter past 10,000 it breaks, so
a duration-mode run issues at most 10,000 + batch-size requests no matter
what the clock does; the live Glockit loop has no cap at all and stops only
when the scripted clock reaches the duration. -/
theorem duration_safety_cap_only_in_barbarians :
    (∀ (duration concurrent : Nat) (script : List (Nat × Nat)) (counter : Nat),
      counter ≤ 10000 →
        BarbariansBench.durationIssued duration concurrent script counter
          ≤ 10000 - counter + concurrent)
    ∧ (∀ (duration concurrent : Nat) (script : List (Nat × Nat)),
        BarbariansBench.durationIssued duration concurrent script 0 ≤ 10000 + concurrent)
    ∧ (∀ d : Nat, 0 < d →
        ∀ n, Glockit.durationIterations d (List.replicate n 0) = n) := by
  have hmain : ∀ (duration concurrent : Nat) (script : List (Nat × Nat)) (counter : Nat),
      counter ≤ 10000 →
        BarbariansBench.durationIssued duration concurrent script counter
          ≤ 10000 - counter + concurrent := by
    intro duration concurrent script
    induction script with
    | nil =>
        intro counter h
        simp [BarbariansBench.durationIssued]
    | cons e rest ih =>
        intro counter h
        rcases e with ⟨t, k⟩
        have hk : min k concurrent ≤ concurrent := Nat.min_le_right k concurrent
        simp only [BarbariansBench.durationIssued]
        by_cases ht : t < duration
        · rw [if_pos ht]
          by_cases hover : 10000 < counter + min k concurrent
          · rw [if_pos hover]
            omega
          · rw [if_neg hover]
            have hrec := ih (counter + min k concurrent) (by omega)
            omega
        · rw [if_neg ht]
          omega
  refine ⟨hmain, ?_, fun d hd n => glockit_durationIterations_replicate d hd n⟩
  intro duration concurrent script
  have := hmain duration concurrent script 0 (by omega)
  omega

/-! ## C7 - count-mode outcome bounds -/

/-- Inductive invariant of the count-mode scheduler: worker conservation,
and pushed-plus-inflight stays under `maxRequests + workers - 1` because a
worker only goes in flight after seeing fewer than `maxRequests` pushed
outcomes while at least one worker (itself) is not in flight. -/
theorem glockit_sched_inv (max W : Nat) (s : Glockit.SchedState)
    (h : Glockit.Reachable max W s) :
    s.idle + s.inflight + s.stopped = W ∧ s.pushed + s.inflight ≤ max + W - 1 := by
  unfold Glockit.Reachable at h
  induction h with
  | refl => refine ⟨by simp [Glockit.initState], ?_⟩; simp [Glockit.initState]
  | @tail b c hsteps step ih =>
      rcases ih with ⟨h1, h2⟩
      cases step with
      | checkGo hidle hcnt => refine ⟨by simp; omega, by simp; omega⟩
      | finish hinf => refine ⟨by simp; omega, by simp; omega⟩
      | checkStop hidle hcnt => refine ⟨by simp; omega, by simp; omega⟩

/-- With a single worker the scheduler is sequential: in flight only below
the cap, stopped exactly at the cap. -/
theorem glockit_sched_one (max : Nat) (s : Glockit.SchedState)
    (h : Glockit.Reachable max 1 s) :
    s.idle + s.inflight + s.stopped = 1
    ∧ (s.inflight = 1 → s.pushed < max)
    ∧ (s.stopped = 1 → s.pushed = max)
    ∧ (s.idle = 1 → s.pushed ≤ max) := by
  unfold Glockit.Reachable at h
  induction h with
  | refl =>
      refine ⟨by simp [Glockit.initState], ?_, ?_, ?_⟩ <;>
        simp [Glockit.initState]
  | @tail b c hsteps step ih =>
      rcases ih with ⟨i1, i2, i3, i4⟩
      cases step with
      | checkGo hidle hcnt =>
          refine ⟨by simp; omega, ?_, ?_, ?_⟩ <;> simp <;> intro hx <;> omega
      | finish hinf =>
          have hp : b.pushed < max := i2 (by omega)
          refine ⟨by simp; omega, ?_, ?_, ?_⟩ <;> simp <;> intro hx <;> omega
      | checkStop hidle hcnt =>
          have hp : b.pushed ≤ max := i4 (by omega)
          refine ⟨by simp; omega, ?_, ?_, ?_⟩ <;> simp <;> intro hx <;> omega

/-- C7 (amended): with one worker every finished count-mode run records
exactly `maxRequests` outcomes, and at most one request is ever in flight;
with `W` workers the in-flight count never exceeds `W` and a finished run
records at most `maxRequests + W - 1` outcomes - the cooperative check lets
each extra worker overshoot by at most one.  The concrete five-request
single-worker trace closes the non-vacuity of the bounds. -/
theorem count_mode_scheduler_spec :
    (∀ (max : Nat) (s : Glockit.SchedState),
      Glockit.Reachable max 1 s → Glockit.Finished s → s.pushed = max)
    ∧ (∀ (max W : Nat) (s : Glockit.SchedState),
        Glockit.Reachable max W s → s.inflight ≤ W)
    ∧ (∀ (max W : Nat) (s : Glockit.SchedState),
        Glockit.Reachable max W s → Glockit.Finished s → s.pushed ≤ max + W - 1)
    ∧ Glockit.Reachable 5 1 ⟨0, 0, 1, 5⟩ ∧ Glockit.Finished ⟨0, 0, 1, 5⟩ := by
  refine ⟨?_, ?_, ?_, ?_, ⟨rfl, rfl⟩⟩
  · intro max s hr hf
    obtain ⟨i1, i2, i3, i4⟩ := glockit_sched_one max s hr
    have hf' : s.idle = 0 ∧ s.inflight = 0 := hf
    exact i3 (by omega)
  · intro max W s hr
    have h1 := (glockit_sched_inv max W s hr).1
    omega
  · intro max W s hr hf
    have h2 := (glockit_sched_inv max W s hr).2
    have hf' : s.idle = 0 ∧ s.inflight = 0 := hf
    omega
  · have g0 : Glockit.SchedStep 5 ⟨1, 0, 0, 0⟩ ⟨0, 1, 0, 0⟩ :=
      Glockit.SchedStep.checkGo _ (by decide) (by decide)
    have g1 : Glockit.SchedStep 5 ⟨0, 1, 0, 0⟩ ⟨1, 0, 0, 1⟩ :=
      Glockit.SchedStep.finish _ (by decide)
    have g2 : Glockit.SchedStep 5 ⟨1, 0, 0, 1⟩ ⟨0, 1, 0, 1⟩ :=
      Glockit.SchedStep.checkGo _ (by decide) (by decide)
    have g3 : Glockit.SchedStep 5 ⟨0, 1, 0, 1⟩ ⟨1, 0, 0, 2⟩ :=
      Glockit.SchedStep.finish _ (by decide)
    have g4 : Glockit.SchedStep 5 ⟨1, 0, 0, 2⟩ ⟨0, 1, 0, 2⟩ :=
      Glockit.SchedStep.checkGo _ (by decide) (by decide)
    have g5 : Glockit.SchedStep 5 ⟨0, 1, 0, 2⟩ ⟨1, 0, 0, 3⟩ :=
      Glockit.SchedStep.finish _ (by decide)
    have g6 : Glockit.SchedStep 5 ⟨1, 0, 0, 3⟩ ⟨0, 1, 0, 3⟩ :=
      Glockit.SchedStep.checkGo _ (by decide) (by decide)
    have g7 : Glockit.SchedStep 5 ⟨0, 1, 0, 3⟩ ⟨1, 0, 0, 4⟩ :=
      Glockit.SchedStep.finish _ (by decide)
    have g8 : Glockit.SchedStep 5 ⟨1, 0, 0, 4⟩ ⟨0, 1, 0, 4⟩ :=
      Glockit.SchedStep.checkGo _ (by decide) (by decide)
    have g9 : Glockit.SchedStep 5 ⟨0, 1, 0, 4⟩ ⟨1, 0, 0, 5⟩ :=
      Glockit.SchedStep.finish _ (by decide)
    have g10 : Glockit.SchedStep 5 ⟨1, 0, 0, 5⟩ ⟨0, 0, 1, 5⟩ :=
      Glockit.SchedStep.checkStop _ (by decide) (by decide)
    exact (((((((((Relation.ReflTransGen.single g0).tail g1).tail g2).tail g3).tail
      g4).tail g5).tail g6).tail g7).tail g8).tail g9 |>.tail g10

/-- C7 counterexample: with `maxRequests = 3` and two workers (a legal
configuration, `effectiveConcurrent(concurrent = 2, maxRequests = 3) = 2`)
the scheduler can finish having pushed FOUR outcomes: both workers pass the
`results.length < maxRequests` check while two outcomes are recorded, both
dispatch, and both pushes land - the count exceeds `maxRequests`. -/
theorem count_scheduler_overshoot :
    Glockit.Reachable 3 2 ⟨0, 0, 2, 4⟩ ∧ Glockit.Finished ⟨0, 0, 2, 4⟩
    ∧ 3 < 4 ∧ Glockit.effectiveConcurrent (some 2) 3 = 2 := by
  refine ⟨?_, ⟨rfl, rfl⟩, by decide, by decide⟩
  have g0 : Glockit.SchedStep 3 ⟨2, 0, 0, 0⟩ ⟨1, 1, 0, 0⟩ :=
    Glockit.SchedStep.checkGo _ (by decide) (by decide)
  have g1 : Glockit.SchedStep 3 ⟨1, 1, 0, 0⟩ ⟨2, 0, 0, 1⟩ :=
    Glockit.SchedStep.finish _ (by decide)
  have g2 : Glockit.SchedStep 3 ⟨2, 0, 0, 1⟩ ⟨1, 1, 0, 1⟩ :=
    Glockit.SchedStep.checkGo _ (by decide) (by decide)
  have g3 : Glockit.SchedStep 3 ⟨1, 1, 0, 1⟩ ⟨2, 0, 0, 2⟩ :=
    Glockit.SchedStep.finish _ (by decide)
  have g4 : Glockit.SchedStep 3 ⟨2, 0, 0, 2⟩ ⟨1, 1, 0, 2⟩ :=
    Glockit.SchedStep.checkGo _ (by decide) (by decide)
  have g5 : Glockit.SchedStep 3 ⟨1, 1, 0, 2⟩ ⟨0, 2, 0, 2⟩ :=
    Glockit.SchedStep.checkGo _ (by decide) (by decide)
  have g6 : Glockit.SchedStep 3 ⟨0, 2, 0, 2⟩ ⟨1, 1, 0, 3⟩ :=
    Glockit.SchedStep.finish _ (by decide)
  have g7 : Glockit.SchedStep 3 ⟨1, 1, 0, 3⟩ ⟨2, 0, 0, 4⟩ :=
    Glockit.SchedStep.finish _ (by decide)
  have g8 : Glockit.SchedStep 3 ⟨2, 0, 0, 4⟩ ⟨1, 0, 1, 4⟩ :=
    Glockit.SchedStep.checkStop _ (by decide) (by decide)
  have g9 : Glockit.SchedStep 3 ⟨1, 0, 1, 4⟩ ⟨0, 0, 2, 4⟩ :=
    Glockit.SchedStep.checkStop _ (by decide) (by decide)
  exact ((((((((Relation.ReflTransGen.single g0).tail g1).tail g2).tail g3).tail
    g4).tail g5).tail g6).tail g7).tail g8 |>.tail g9
